import Mathlib

/-!
Verification development for the cars-reliability data-fetch core.

This file gives a shallow embedding, in Lean, of the concurrency/merge core of
the repository (scripts/rdw_api.py, scripts/api_client.py, scripts/data_download.py,
scripts/data_duckdb_export.py, src/rdw_client.py, src/download.py,
src/fetch_pipeline.py) and proves or refutes the specified properties of that
core.  Machine integers do not overflow in any modelled quantity (counts, worker
pool sizes, second-granularity waits), so `Nat` is used throughout; wall-clock
time is passed explicitly as a `Nat` number of seconds.
-/

/-! ## RateLimiter (scripts/rdw_api.py, class RateLimiter)

State and operations are translated field by field from the Python class.
`time.time()` becomes the explicit `now` argument of `on_rate_limit`.
-/

/-- State of `RateLimiter` from scripts/rdw_api.py: current worker count,
minimum worker count, consecutive-429 counter, timestamp of the last
scale-down and the cooldown window (seconds). -/
structure RateLimiter where
  current_workers : Nat
  min_workers : Nat
  rate_limit_count : Nat
  last_scale_down : Nat
  cooldown : Nat
  deriving Repr, DecidableEq

/-- `RateLimiter.__init__(initial_workers, min_workers=2)`:
`rate_limit_count = 0`, `last_scale_down = 0.0`, `cooldown = 30.0`. -/
def RateLimiter.init (initial_workers : Nat) (min_workers : Nat) : RateLimiter :=
  { current_workers := initial_workers
    min_workers := min_workers
    rate_limit_count := 0
    last_scale_down := 0
    cooldown := 30 }

/-- `RateLimiter.on_rate_limit` (called on a 429): increments
`rate_limit_count`; if `now - last_scale_down > cooldown`, halves
`current_workers` (not below `min_workers`) and resets `last_scale_down`;
returns the new state together with the wait `min(2 ** min(rate_limit_count, 5), 32)`. -/
def RateLimiter.on_rate_limit (s : RateLimiter) (now : Nat) : RateLimiter × Nat :=
  let s1 := { s with rate_limit_count := s.rate_limit_count + 1 }
  let s2 :=
    if s1.cooldown < now - s1.last_scale_down then
      { s1 with current_workers := max s1.min_workers (s1.current_workers / 2)
                last_scale_down := now }
    else s1
  (s2, min (2 ^ min s2.rate_limit_count 5) 32)

/-- `RateLimiter.on_success`: decrements `rate_limit_count` if it is positive. -/
def RateLimiter.on_success (s : RateLimiter) : RateLimiter :=
  if 0 < s.rate_limit_count then
    { s with rate_limit_count := s.rate_limit_count - 1 }
  else s

/-- `RateLimiter.get_workers`: snapshot read of `current_workers`. -/
def RateLimiter.get_workers (s : RateLimiter) : Nat :=
  s.current_workers

/-- One client-visible operation on the rate limiter: a 429 at time `now`,
a successful request, or a snapshot read (which does not change state). -/
inductive RLOp
  | throttle (now : Nat)
  | success
  | read
  deriving Repr, DecidableEq

/-- Run a sequence of operations against the rate limiter state. -/
def RateLimiter.run (s : RateLimiter) : List RLOp → RateLimiter
  | [] => s
  | RLOp.throttle now :: ops => ((s.on_rate_limit now).1).run ops
  | RLOp.success :: ops => s.on_success.run ops
  | RLOp.read :: ops => s.run ops

/-- Wait durations returned by `n` consecutive `on_rate_limit` calls
(all at time 0, which keeps `now - last_scale_down` within the cooldown;
the wait durations do not depend on the clock). -/
def throttleWaits : Nat → RateLimiter → List Nat
  | 0, _ => []
  | n + 1, s =>
    let r := s.on_rate_limit 0
    r.2 :: throttleWaits n r.1

lemma on_rate_limit_count (s : RateLimiter) (now : Nat) :
    (s.on_rate_limit now).1.rate_limit_count = s.rate_limit_count + 1 := by
  unfold RateLimiter.on_rate_limit
  dsimp only
  split <;> rfl

lemma on_rate_limit_wait (s : RateLimiter) (now : Nat) :
    (s.on_rate_limit now).2 = min (2 ^ min (s.rate_limit_count + 1) 5) 32 := by
  unfold RateLimiter.on_rate_limit
  dsimp only
  split <;> rfl

/-- C6: each `on_rate_limit` call increments the throttle counter and returns a
wait of exactly `min(2 ^ min(count, 5), 32)` seconds computed from the
incremented counter; no wait ever exceeds 32 seconds; and from a fresh limiter
(counter 0) five consecutive throttles wait exactly 2, 4, 8, 16, 32 seconds. -/
theorem rateLimiter_backoff_schedule :
    (∀ (s : RateLimiter) (now : Nat),
      (s.on_rate_limit now).1.rate_limit_count = s.rate_limit_count + 1 ∧
      (s.on_rate_limit now).2 = min (2 ^ min ((s.on_rate_limit now).1.rate_limit_count) 5) 32 ∧
      (s.on_rate_limit now).2 ≤ 32) ∧
    throttleWaits 5 (RateLimiter.init 8 2) = [2, 4, 8, 16, 32] := by
  constructor
  · intro s now
    refine ⟨on_rate_limit_count s now, ?_, ?_⟩
    · rw [on_rate_limit_wait, on_rate_limit_count]
    · rw [on_rate_limit_wait]
      exact min_le_right _ _
  · rfl

lemma on_rate_limit_workers_ge (s : RateLimiter) (now : Nat)
    (h : s.min_workers ≤ s.current_workers) :
    s.min_workers ≤ (s.on_rate_limit now).1.current_workers := by
  unfold RateLimiter.on_rate_limit
  dsimp only
  split
  · exact le_max_left _ _
  · exact h

lemma on_rate_limit_workers_le (s : RateLimiter) (now : Nat)
    (h : s.min_workers ≤ s.current_workers) :
    (s.on_rate_limit now).1.current_workers ≤ s.current_workers := by
  unfold RateLimiter.on_rate_limit
  dsimp only
  split
  · exact max_le h (Nat.div_le_self _ _)
  · exact le_rfl

lemma on_rate_limit_min_workers (s : RateLimiter) (now : Nat) :
    (s.on_rate_limit now).1.min_workers = s.min_workers := by
  unfold RateLimiter.on_rate_limit
  dsimp only
  split <;> rfl

lemma on_success_workers (s : RateLimiter) :
    s.on_success.current_workers = s.current_workers ∧
    s.on_success.min_workers = s.min_workers := by
  unfold RateLimiter.on_success
  split <;> exact ⟨rfl, rfl⟩

lemma run_workers_ge (ops : List RLOp) :
    ∀ (s : RateLimiter), s.min_workers ≤ s.current_workers →
      (s.run ops).min_workers ≤ (s.run ops).current_workers := by
  induction ops with
  | nil => intro s h; exact h
  | cons op rest ih =>
    intro s h
    cases op with
    | throttle now =>
      have h1 := on_rate_limit_workers_ge s now h
      have h2 := on_rate_limit_min_workers s now
      exact ih _ (by rw [h2]; exact h1)
    | success =>
      have h1 := on_success_workers s
      exact ih _ (by rw [h1.1, h1.2]; exact h)
    | read => exact ih _ h

lemma run_min_workers (ops : List RLOp) :
    ∀ (s : RateLimiter), (s.run ops).min_workers = s.min_workers := by
  induction ops with
  | nil => intro s; rfl
  | cons op rest ih =>
    intro s
    cases op with
    | throttle now => rw [RateLimiter.run, ih, on_rate_limit_min_workers]
    | success => rw [RateLimiter.run, ih, (on_success_workers s).2]
    | read => rw [RateLimiter.run, ih]

/-- C7: from an initial worker count at or above the floor, a scale-down step
keeps the worker count between the floor and its pre-event value, and after any
sequence of operations `get_workers` never observes a value below the floor. -/
theorem rateLimiter_floor_invariant
    (initial floor : Nat) (ops : List RLOp) (now : Nat) (hfloor : floor ≤ initial) :
    (∀ s : RateLimiter, s.min_workers ≤ s.current_workers →
      s.min_workers ≤ (s.on_rate_limit now).1.current_workers ∧
      (s.on_rate_limit now).1.current_workers ≤ s.current_workers) ∧
    floor ≤ ((RateLimiter.init initial floor).run ops).get_workers := by
  constructor
  · intro s h
    exact ⟨on_rate_limit_workers_ge s now h, on_rate_limit_workers_le s now h⟩
  · have h := run_workers_ge ops (RateLimiter.init initial floor) hfloor
    rw [run_min_workers] at h
    exact h

/-- Witness for C7 at initial = 8, floor = 2, a concrete operation sequence. -/
theorem rateLimiter_floor_invariant_witness :
    (2 : Nat) ≤ 8 ∧
    ((∀ s : RateLimiter, s.min_workers ≤ s.current_workers →
      s.min_workers ≤ (s.on_rate_limit 100).1.current_workers ∧
      (s.on_rate_limit 100).1.current_workers ≤ s.current_workers) ∧
    2 ≤ ((RateLimiter.init 8 2).run
          [RLOp.throttle 100, RLOp.success, RLOp.throttle 200, RLOp.read]).get_workers) :=
  ⟨by decide,
   rateLimiter_floor_invariant 8 2
     [RLOp.throttle 100, RLOp.success, RLOp.throttle 200, RLOp.read] 100 (by decide)⟩

/-! ## Records and API responses

The Socrata API returns JSON records; each record is a flat field-to-string
map (the exporter reads everything with `all_varchar=true`), modelled as an
association list. -/

/-- One record: an association list from field name to string value. -/
abbrev Row := List (String × String)

/-- One HTTP exchange as seen by the client: either an HTTP response with a
status code and decoded records, or a transport-level error
(`Timeout` / `ConnectionError` / `ChunkedEncodingError`). -/
inductive ApiResp
  | http (code : Nat) (records : List Row)
  | netErr
  deriving Repr, DecidableEq

/-- Outcome of a client call: decoded records, or a propagated exception. -/
inductive ApiResult
  | success (records : List Row)
  | failure
  deriving Repr, DecidableEq

/-! ## api_get (scripts/rdw_api.py)

`api_get` runs `for attempt in range(5)`: a 429 asks the global rate limiter
for a wait, sleeps, and continues the loop; any other HTTP error status is
raised by `raise_for_status` and propagates (the generic
`RequestException` arm re-raises); a transport error sleeps `2 ** (attempt+1)`
and retries unless it happened on the final attempt; falling out of the loop
raises `RequestException`.  The oracle `resp` gives the server's answer to the
request made in iteration `attempt`; the returned list collects the sleep
durations in order. -/
def api_get_loop (resp : Nat → ApiResp) (now : Nat) (max_attempts : Nat) :
    List Nat → RateLimiter → ApiResult × RateLimiter × List Nat
  | [], rl => (ApiResult.failure, rl, [])
  | attempt :: rest, rl =>
    match resp attempt with
    | ApiResp.http code records =>
      if code = 429 then
        let r := rl.on_rate_limit now
        let out := api_get_loop resp now max_attempts rest r.1
        (out.1, out.2.1, r.2 :: out.2.2)
      else if 400 ≤ code then
        (ApiResult.failure, rl, [])
      else
        (ApiResult.success records, rl.on_success, [])
    | ApiResp.netErr =>
      if attempt < max_attempts - 1 then
        let out := api_get_loop resp now max_attempts rest rl
        (out.1, out.2.1, 2 ^ (attempt + 1) :: out.2.2)
      else
        (ApiResult.failure, rl, [])

/-- `api_get` from scripts/rdw_api.py: `max_attempts = 5`, attempts numbered
`range(5)`, threading the module-level `RATE_LIMITER` state. -/
def api_get (resp : Nat → ApiResp) (now : Nat) (rl : RateLimiter) :
    ApiResult × RateLimiter × List Nat :=
  api_get_loop resp now 5 (List.range 5) rl

/-- C5 counterexample: a request answered by 429 on every attempt fails after
five attempts — the 429 path `continue`s inside `for attempt in range(5)`, so
each 429 retry consumes one bounded attempt, refuting "a page request can never
fail solely because of repeated 429 responses".  The five waits 2, 4, 8, 16, 32
show every one of the five attempts was a rate-limited retry. -/
theorem api_get_allThrottled_fails :
    api_get (fun _ => ApiResp.http 429 []) 0 (RateLimiter.init 8 2) =
      (ApiResult.failure,
       { current_workers := 8, min_workers := 2, rate_limit_count := 5,
         last_scale_down := 0, cooldown := 30 },
       [2, 4, 8, 16, 32]) := by
  rfl

/-- C5 amended: a 429 is not raised as an HTTP error — it is handed to the
rate limiter (whose throttle counter advances) and the request is retried after
the returned wait — but each 429 retry consumes one of the five shared loop
attempts, so five consecutive 429 responses exhaust the budget and the request
fails.  Four 429s followed by a success return the records, having slept
exactly the limiter's waits 2, 4, 8, 16 and leaving the counter at 3 (four
increments, one success decrement). -/
theorem api_get_429_retried_within_budget :
    ∀ recs : List Row,
      api_get (fun a => if a < 4 then ApiResp.http 429 [] else ApiResp.http 200 recs)
          0 (RateLimiter.init 8 2) =
        (ApiResult.success recs,
         { current_workers := 8, min_workers := 2, rate_limit_count := 3,
           last_scale_down := 0, cooldown := 30 },
         [2, 4, 8, 16]) ∧
      (api_get (fun _ => ApiResp.http 429 []) 0 (RateLimiter.init 8 2)).1 =
        ApiResult.failure := by
  intro recs
  exact ⟨rfl, rfl⟩

/-! ## page_fetch (scripts/api_client.py / scripts/data_download.py)

`page_fetch` loops `for attempt in range(5)`: it calls `session.get`, lets
`raise_for_status` raise on any error status (no special 429 handling in this
variant, and `HTTPError` is not in the caught tuple, so every error status
propagates out of the loop), and catches only
`ChunkedEncodingError`/`ConnectionError`/`Timeout`, sleeping `2 ** attempt`
before retrying and re-raising on the final attempt.

The session it is given is built by `session_create`, which mounts an
`HTTPAdapter` with `Retry(total=3, status_forcelist=[500, 502, 503, 504])`:
below `page_fetch`, the transport transparently re-issues a request answered
by one of those four statuses (or by a connection-level failure), up to three
times; an exhausted retry budget surfaces as an exception that `page_fetch`
treats exactly like the final response shown here (an error status is raised
either by the transport's `RetryError` or by `raise_for_status`, both of which
escape `page_fetch`'s `except` tuple).  `transportGet` models that configured
transport behaviour; the oracle argument gives the server's answer to each
successive wire request of one `session.get` call. -/

/-- Statuses in the `status_forcelist` of the `Retry` mounted by
`session_create` (scripts/data_download.py / scripts/api_client.py). -/
def isForceStatus (code : Nat) : Bool :=
  code = 500 || code = 502 || code = 503 || code = 504

/-- One `session.get` through the configured adapter: with `rem` transport
retries left, a forcelist status or a connection-level failure is re-issued;
with the budget exhausted the last answer stands (and is raised to the caller,
who treats every error status as fatal anyway). -/
def transportGet (resp : Nat → ApiResp) : Nat → Nat → ApiResp
  | t, 0 => resp t
  | t, rem + 1 =>
    match resp t with
    | ApiResp.http code records =>
      if isForceStatus code then transportGet resp (t + 1) rem
      else ApiResp.http code records
    | ApiResp.netErr => transportGet resp (t + 1) rem

/-- One `session.get` call: initial wire request plus up to `total = 3`
transport retries. -/
def sessionGet (resp : Nat → ApiResp) : ApiResp :=
  transportGet resp 0 3

/-- The `for attempt in range(max_retries)` loop of `page_fetch`; the oracle
maps (page attempt, wire request within that attempt) to the server's answer.
The returned list collects the backoff sleeps `2 ** attempt` in order. -/
def page_fetch_loop (resp : Nat → Nat → ApiResp) (max_retries : Nat) :
    List Nat → ApiResult × List Nat
  | [] => (ApiResult.failure, [])
  | attempt :: rest =>
    match sessionGet (resp attempt) with
    | ApiResp.http code records =>
      if 400 ≤ code then (ApiResult.failure, [])
      else (ApiResult.success records, [])
    | ApiResp.netErr =>
      if attempt = max_retries - 1 then (ApiResult.failure, [])
      else
        let out := page_fetch_loop resp max_retries rest
        (out.1, 2 ^ attempt :: out.2)

/-- `page_fetch` from scripts/api_client.py (`max_retries = 5`). -/
def page_fetch (resp : Nat → Nat → ApiResp) : ApiResult × List Nat :=
  page_fetch_loop resp 5 (List.range 5)

/-- C8 counterexample: a 503 answered by a 200 on the next wire request is
retried by the configured transport and `page_fetch` returns the records —
so a non-429 HTTP error status is not "fatal immediately with no retry of any
kind". -/
theorem page_fetch_503_retried_counterexample :
    page_fetch (fun _ t => if t = 0 then ApiResp.http 503 []
                           else ApiResp.http 200 [[("kenteken", "AB123C")]]) =
      (ApiResult.success [[("kenteken", "AB123C")]], []) ∧
    (ApiResult.success [[("kenteken", "AB123C")]] : ApiResult) ≠ ApiResult.failure := by
  exact ⟨rfl, by decide⟩

/-- C8 amended: `page_fetch` itself retries exactly the transient transport
errors (connection reset, timeout, truncated transfer), sleeping 1, 2, 4, 8
seconds (doubling per attempt) across its five bounded attempts and propagating
the error on the final one; an HTTP error status outside the transport's
forcelist (e.g. 404) is fatal immediately, with no sleep and no further page
attempt; a forcelist status (500/502/503/504) is first retried up to three
times by the transport configured in `session_create`, and only if every wire
request is so answered does it become fatal — again without consuming any of
`page_fetch`'s own attempts. -/
theorem page_fetch_retry_amended :
    ∀ (recs rs : List Row) (resp4 resp5 : Nat → Nat → ApiResp),
      page_fetch (fun a _ => if a < 4 then ApiResp.netErr else ApiResp.http 200 recs) =
        (ApiResult.success recs, [1, 2, 4, 8]) ∧
      page_fetch (fun _ _ => ApiResp.netErr) = (ApiResult.failure, [1, 2, 4, 8]) ∧
      (resp4 0 0 = ApiResp.http 404 rs → page_fetch resp4 = (ApiResult.failure, [])) ∧
      ((∀ t, resp5 0 t = ApiResp.http 503 rs) → page_fetch resp5 = (ApiResult.failure, [])) := by
  intro recs rs resp4 resp5
  refine ⟨rfl, rfl, ?_, ?_⟩
  · intro h
    show page_fetch_loop resp4 5 (List.range 5) = (ApiResult.failure, [])
    rw [show List.range 5 = [0, 1, 2, 3, 4] from rfl]
    simp only [page_fetch_loop, sessionGet, transportGet, h, isForceStatus]
    rfl
  · intro h
    show page_fetch_loop resp5 5 (List.range 5) = (ApiResult.failure, [])
    rw [show List.range 5 = [0, 1, 2, 3, 4] from rfl]
    simp only [page_fetch_loop, sessionGet, transportGet, h 0, h 1, h 2, h 3, isForceStatus]
    rfl

/-- Witness for C8 amended: both hypotheses discharged at concrete oracles. -/
theorem page_fetch_retry_amended_witness :
    page_fetch (fun _ _ => ApiResp.http 404 []) = (ApiResult.failure, []) ∧
    page_fetch (fun _ _ => ApiResp.http 503 []) = (ApiResult.failure, []) :=
  ⟨(page_fetch_retry_amended [] [] (fun _ _ => ApiResp.http 404 [])
      (fun _ _ => ApiResp.http 503 [])).2.2.1 rfl,
   (page_fetch_retry_amended [] [] (fun _ _ => ApiResp.http 404 [])
      (fun _ _ => ApiResp.http 503 [])).2.2.2 (fun _ => rfl)⟩

/-! ## Merge with primary-key dedup (scripts/data_duckdb_export.py)

The incremental branch of `dataset_download_to_parquet` merges with

    SELECT {column_list} FROM (
      SELECT *, ROW_NUMBER() OVER (
        PARTITION BY {pk_columns} ORDER BY (SELECT NULL)) as rn
      FROM (SELECT * FROM new_data UNION ALL SELECT * FROM existing_data)
    ) WHERE rn = 1

`ROW_NUMBER` partitioned by the primary-key columns assigns 1..n within each
group of rows sharing a primary-key tuple, in the order given by
`ORDER BY (SELECT NULL)` — which imposes no order at all, so the row receiving
`rn = 1` is an arbitrary member of its group.  The merge is therefore modelled
with an explicit selection function `sel` choosing the surviving row of each
group; any `sel` that picks a member of a non-empty group (`ValidSel`) is a
legitimate execution of this SQL.  Window partitioning compares NULLs as
equal, matching equality of `Option`-valued key tuples. -/

/-- Value of column `c` in record `r` (NULL when the column is absent). -/
def colValue (r : Row) (c : String) : Option String :=
  (r.find? (fun p => p.1 == c)).map Prod.snd

/-- A primary-key tuple: the values of the key columns, in order. -/
abbrev PKey := List (Option String)

/-- The primary-key tuple of a record under key column list `pkCols`. -/
def pkOf (pkCols : List String) (r : Row) : PKey :=
  pkCols.map (colValue r)

/-- The group of rows of `t` sharing primary-key tuple `k`
(one window partition). -/
def pkGroup (pkCols : List String) (t : List Row) (k : PKey) : List Row :=
  t.filter (fun r => decide (pkOf pkCols r = k))

/-- The distinct primary-key tuples of `t`, in first-appearance order. -/
def tableKeys (pkCols : List String) (t : List Row) : List PKey :=
  (t.map (pkOf pkCols)).dedup

/-- The dedup merge: `new_data UNION ALL existing_data`, one surviving row per
primary-key group, the survivor chosen by `sel` (the row that
`ROW_NUMBER ... ORDER BY (SELECT NULL)` happens to number 1). -/
def merge_dedup (sel : List Row → Row) (pkCols : List String)
    (new_data existing_data : List Row) : List Row :=
  let all := new_data ++ existing_data
  (tableKeys pkCols all).map (fun k => sel (pkGroup pkCols all k))

/-- A selection function is a legitimate `rn = 1` choice when it picks a
member of every non-empty group. -/
def ValidSel (sel : List Row → Row) : Prop :=
  ∀ l : List Row, l ≠ [] → sel l ∈ l

/-- Selection keeping the first row of a group. -/
def selHead (l : List Row) : Row := l.headD []

/-- Selection keeping the last row of a group. -/
def selLast (l : List Row) : Row := l.getLastD []

lemma validSel_selHead : ValidSel selHead := by
  intro l h
  cases l with
  | nil => exact absurd rfl h
  | cons a t => exact List.mem_cons_self a t

lemma mem_pkGroup {pkCols : List String} {t : List Row} {k : PKey} {r : Row} :
    r ∈ pkGroup pkCols t k ↔ r ∈ t ∧ pkOf pkCols r = k := by
  simp [pkGroup, List.mem_filter]

lemma pkGroup_ne_nil {pkCols : List String} {t : List Row} {k : PKey}
    (h : k ∈ t.map (pkOf pkCols)) : pkGroup pkCols t k ≠ [] := by
  obtain ⟨r, hr, hrk⟩ := List.mem_map.mp h
  exact List.ne_nil_of_mem (mem_pkGroup.mpr ⟨hr, hrk⟩)

lemma sel_pkGroup_key {sel : List Row → Row} (hsel : ValidSel sel)
    {pkCols : List String} {t : List Row} {k : PKey}
    (h : k ∈ tableKeys pkCols t) :
    pkOf pkCols (sel (pkGroup pkCols t k)) = k := by
  have hm : k ∈ t.map (pkOf pkCols) := List.mem_dedup.mp h
  exact (mem_pkGroup.mp (hsel _ (pkGroup_ne_nil hm))).2

lemma filtered_length_of_keyed (pkCols : List String) (k : PKey) (g : PKey → Row) :
    ∀ keys : List PKey, keys.Nodup → (∀ k' ∈ keys, pkOf pkCols (g k') = k') →
      ((keys.map g).filter (fun r => decide (pkOf pkCols r = k))).length
        = if k ∈ keys then 1 else 0 := by
  intro keys
  induction keys with
  | nil => intro _ _; simp
  | cons k0 rest ih =>
    intro hnd hall
    have hk0 : pkOf pkCols (g k0) = k0 := hall k0 (List.mem_cons_self _ _)
    obtain ⟨hk0nm, hndr⟩ := List.nodup_cons.mp hnd
    have hrest := ih hndr (fun k' hk' => hall k' (List.mem_cons_of_mem _ hk'))
    rw [List.map_cons, List.filter_cons]
    by_cases hek : k0 = k
    · subst hek
      have hd : decide (pkOf pkCols (g k0) = k0) = true := by simp [hk0]
      rw [hd]
      have hnm : k0 ∉ rest := hk0nm
      simp [List.length_cons, hrest, hnm]
    · have hd : decide (pkOf pkCols (g k0) = k) = false := by
        simp [hk0]
        exact hek
      rw [hd]
      have hmem : k ∈ k0 :: rest ↔ k ∈ rest := by
        constructor
        · intro h
          rcases List.mem_cons.mp h with h1 | h2
          · exact absurd h1.symm hek
          · exact h2
        · exact List.mem_cons_of_mem _
      simp [hrest, hmem]

/-- C1: under any legitimate tie-break, the merged table contains exactly one
row for every primary-key tuple occurring in the new batch or the existing
table, and no row for any other tuple. -/
theorem merge_dedup_unique_keys (sel : List Row → Row) (pkCols : List String)
    (new_data existing_data : List Row) (hsel : ValidSel sel) (k : PKey) :
    (pkGroup pkCols (merge_dedup sel pkCols new_data existing_data) k).length
      = if k ∈ tableKeys pkCols new_data ∨ k ∈ tableKeys pkCols existing_data
        then 1 else 0 := by
  have hsplit : (k ∈ tableKeys pkCols (new_data ++ existing_data))
      ↔ (k ∈ tableKeys pkCols new_data ∨ k ∈ tableKeys pkCols existing_data) := by
    simp [tableKeys, List.mem_dedup]
  have hmain :
      (pkGroup pkCols (merge_dedup sel pkCols new_data existing_data) k).length
        = if k ∈ tableKeys pkCols (new_data ++ existing_data) then 1 else 0 := by
    unfold merge_dedup pkGroup
    exact filtered_length_of_keyed pkCols k _
      (tableKeys pkCols (new_data ++ existing_data))
      (List.nodup_dedup _)
      (fun k' hk' => sel_pkGroup_key hsel hk')
  rw [hmain]
  by_cases h : k ∈ tableKeys pkCols (new_data ++ existing_data)
  · rw [if_pos h, if_pos (hsplit.mp h)]
  · rw [if_neg h, if_neg (fun hc => h (hsplit.mpr hc))]

/-- A new-batch record reusing key 995 with a fresh value. -/
def sampleNew : List Row := [[("Kenteken", "995"), ("waarde", "new995")]]

/-- The previously persisted record for key 995. -/
def sampleOld : List Row := [[("Kenteken", "995"), ("waarde", "old995")]]

/-- Witness for C1: the dedup invariant at a concrete overlapping merge,
with the keep-first selection. -/
theorem merge_dedup_unique_keys_witness :
    ValidSel selHead ∧
    (pkGroup ["Kenteken"] (merge_dedup selHead ["Kenteken"] sampleNew sampleOld)
        [some "995"]).length
      = if [some "995"] ∈ tableKeys ["Kenteken"] sampleNew
           ∨ [some "995"] ∈ tableKeys ["Kenteken"] sampleOld
        then 1 else 0 :=
  ⟨validSel_selHead,
   merge_dedup_unique_keys selHead ["Kenteken"] sampleNew sampleOld
     validSel_selHead [some "995"]⟩

/-- C2: the tie-break of the merge is not "keep the new-batch row".  Selecting
the last row of the 995-group is a legitimate `rn = 1` assignment under
`ORDER BY (SELECT NULL)` (it picks a member of the group), yet it keeps the
existing table's row; the keep-first selection keeps the new row.  The
surviving value for a key shared by both inputs is therefore not determined by
the code, contradicting the code's own comment ("new data takes precedence")
and the claimed keep-first-of-new-then-existing rule. -/
theorem merge_dedup_tiebreak_unordered :
    merge_dedup selLast ["Kenteken"] sampleNew sampleOld
      = [[("Kenteken", "995"), ("waarde", "old995")]] ∧
    merge_dedup selHead ["Kenteken"] sampleNew sampleOld
      = [[("Kenteken", "995"), ("waarde", "new995")]] ∧
    selLast (sampleNew ++ sampleOld) ∈ sampleNew ++ sampleOld ∧
    ([("Kenteken", "995"), ("waarde", "old995")] : Row)
      ≠ [("Kenteken", "995"), ("waarde", "new995")] := by
  refine ⟨rfl, rfl, ?_, ?_⟩
  · simp [selLast, sampleNew, sampleOld]
  · decide

/-! ## Write effects of dataset_download_to_parquet (scripts/data_duckdb_export.py)

The function's observable writes to the durable output are:
- incremental branch (`incremental and output_path.exists() and dataset_id in
  PRIMARY_KEYS`):
  * `new_row_count == 0`: return the existing row count, touch nothing;
  * schema mismatch (`new_cols != existing_cols`): `COPY new_data TO temp_parquet`,
    then re-download and `COPY ... TO output_path` — a direct write to the
    final path;
  * otherwise: `COPY (merge) TO temp_parquet` then `temp_parquet.replace(output_path)`
    — an atomic rename;
- all other cases: `COPY ... TO output_path` — a direct write to the final path.
-/

/-- A durable-storage operation performed by the exporter. -/
inductive FileOp
  | writeTmp            -- write a complete result to the temporary path
  | renameTmpToOutput   -- temp_parquet.replace(output_path): atomic rename
  | writeOutputDirect   -- COPY ... TO output_path: direct write to the final path
  deriving Repr, DecidableEq

/-- Observable outcome of one `dataset_download_to_parquet` run: the ordered
file operations, the table durable at the final path afterwards, and the
returned row count. -/
structure MergeRunOut where
  ops : List FileOp
  finalTable : List Row
  returned : Nat
  deriving Repr, DecidableEq

/-- The branch structure of `dataset_download_to_parquet` after the CSV has
been streamed to the temp file.  `new_data` is the batch just downloaded,
`existing_data` the previously persisted table, `full_data` what a full
re-download returns (used by the schema-mismatch branch), `sel` the merge
tie-break. -/
def dataset_merge_run (sel : List Row → Row) (pkCols : List String)
    (incremental output_exists has_pk schema_match : Bool)
    (new_data existing_data full_data : List Row) : MergeRunOut :=
  if incremental && output_exists && has_pk then
    if new_data.length = 0 then
      { ops := [], finalTable := existing_data, returned := existing_data.length }
    else if !schema_match then
      { ops := [FileOp.writeTmp, FileOp.writeOutputDirect],
        finalTable := full_data, returned := full_data.length }
    else
      let merged := merge_dedup sel pkCols new_data existing_data
      { ops := [FileOp.writeTmp, FileOp.renameTmpToOutput],
        finalTable := merged, returned := merged.length }
  else
    { ops := [FileOp.writeOutputDirect],
      finalTable := new_data, returned := new_data.length }

/-- What is durable at the final path after a crash: the previously persisted
table, a complete replacement, or a torn (partially written) file. -/
inductive OutputState
  | previous
  | replaced
  | torn
  deriving Repr, DecidableEq

/-- Effect of a completed operation on the final path. -/
def applyOp : FileOp → OutputState → OutputState
  | FileOp.writeTmp, st => st
  | FileOp.renameTmpToOutput, _ => OutputState.replaced
  | FileOp.writeOutputDirect, _ => OutputState.replaced

/-- Every state the final path can be in if the process crashes during or
between the operations (the no-crash end state included).  A crash inside a
temp write or on either side of an atomic rename leaves the final path as it
was; a crash inside a direct write to the final path can leave it torn. -/
def crashStates : List FileOp → OutputState → List OutputState
  | [], st => [st]
  | op :: rest, st =>
    let mid : List OutputState :=
      match op with
      | FileOp.writeTmp => [st]
      | FileOp.renameTmpToOutput => [st]
      | FileOp.writeOutputDirect => [st, OutputState.torn]
    mid ++ crashStates rest (applyOp op st)

/-- C3 counterexample: in the schema-mismatch full-refresh branch and in the
full (non-incremental) download branch the result is copied directly to the
final path, so a crash can leave a torn file there — the write-temp-then-rename
discipline does not hold for all branches. -/
theorem merge_write_not_always_atomic :
    OutputState.torn ∈
      crashStates (dataset_merge_run selHead ["Kenteken"] true true true false
        sampleNew sampleOld sampleNew).ops OutputState.previous ∧
    OutputState.torn ∈
      crashStates (dataset_merge_run selHead ["Kenteken"] false true true true
        sampleNew sampleOld sampleNew).ops OutputState.previous := by
  constructor <;> decide

/-- C3 amended: only the incremental same-schema merge branch writes the
complete result to the temporary path and atomically renames it over the final
path — there every crash state is the previous table or the complete
replacement; the schema-mismatch full-refresh branch and the non-incremental
branch write directly to the final path and can leave a torn file on crash. -/
theorem merge_write_atomicity_amended (sel : List Row → Row) (pkCols : List String)
    (oe hp sm : Bool) (new_data existing_data full_data : List Row)
    (hne : new_data.length ≠ 0) :
    (dataset_merge_run sel pkCols true true true true new_data existing_data
        full_data).ops = [FileOp.writeTmp, FileOp.renameTmpToOutput] ∧
    (∀ st ∈ crashStates [FileOp.writeTmp, FileOp.renameTmpToOutput] OutputState.previous,
      st = OutputState.previous ∨ st = OutputState.replaced) ∧
    OutputState.torn ∈
      crashStates (dataset_merge_run sel pkCols true true true false new_data
        existing_data full_data).ops OutputState.previous ∧
    OutputState.torn ∈
      crashStates (dataset_merge_run sel pkCols false oe hp sm new_data
        existing_data full_data).ops OutputState.previous := by
  refine ⟨?_, ?_, ?_, ?_⟩
  · simp [dataset_merge_run, hne]
  · decide
  · simp [dataset_merge_run, hne, crashStates, applyOp]
  · simp [dataset_merge_run, crashStates, applyOp]

/-- Witness for C3 amended, at a one-row batch. -/
theorem merge_write_atomicity_amended_witness :
    sampleNew.length ≠ 0 ∧
    (dataset_merge_run selHead ["Kenteken"] true true true true sampleNew sampleOld
        sampleNew).ops = [FileOp.writeTmp, FileOp.renameTmpToOutput] :=
  ⟨by decide,
   (merge_write_atomicity_amended selHead ["Kenteken"] true true true
      sampleNew sampleOld sampleNew (by decide)).1⟩

/-- C9: an empty new batch against an existing table short-circuits — no file
operation touches the final path, the durable table is exactly the previously
persisted one, the returned count is its row count, and even a crash at any
point leaves the previous table intact. -/
theorem merge_empty_batch_frame (sel : List Row → Row) (pkCols : List String)
    (sm : Bool) (existing_data full_data : List Row) :
    dataset_merge_run sel pkCols true true true sm [] existing_data full_data =
      { ops := [], finalTable := existing_data, returned := existing_data.length } ∧
    crashStates (dataset_merge_run sel pkCols true true true sm [] existing_data
        full_data).ops OutputState.previous = [OutputState.previous] := by
  constructor
  · simp [dataset_merge_run]
  · simp [dataset_merge_run, crashStates]

/-! ## Offset planning (scripts/data_download.py, dataset_download_parallel)

`dataset_download_parallel` plans `offsets = list(range(0, total_rows,
page_size))` from the advisory row-count estimate and submits exactly one
fetch task per planned offset to the thread pool; every submitted future is
awaited, and no code path inspects a page's length — a short page neither
stops the run early nor extends it.  `fetch_defects_found`
(src/fetch_pipeline.py) plans identically (`offsets = list(range(0, limit,
page_size))`) and likewise never tests page length. -/

/-- `list(range(0, total_rows, page_size))` for a positive page size:
`ceil(total_rows / page_size)` offsets spaced `page_size` apart. -/
def plannedOffsets (total_rows page_size : Nat) : List Nat :=
  (List.range ((total_rows + page_size - 1) / page_size)).map (fun i => i * page_size)

/-- The page a `$limit`/`$offset` query returns from a remote dataset. -/
def pageAt (remote : List Row) (offset limit : Nat) : List Row :=
  (remote.drop offset).take limit

/-- One engine run: every planned offset is fetched (in some completion
order; order is irrelevant to what is fetched), pairing each offset with the
page the remote returns for it. -/
def engineRun (remote : List Row) (total_rows page_size : Nat) : List (Nat × List Row) :=
  (plannedOffsets total_rows page_size).map (fun o => (o, pageAt remote o page_size))

/-- Modelled from the spec: the offsets a fetch loop terminated by the
short-page rule ("a returned page shorter than the requested page size marks
end-of-data") would visit on a remote of `remoteLen` rows — full pages from
offset 0, then the final short page. -/
def shortPageOffsets (remoteLen page_size : Nat) : List Nat :=
  (List.range (remoteLen / page_size + 1)).map (fun i => i * page_size)

/-- Remote dataset of `n` distinct one-field records. -/
def mkRows (n : Nat) : List Row :=
  (List.range n).map (fun i => [("rij", toString i)])

/-- C4 counterexample: with an advisory estimate of 10 rows, page size 5 and a
true remote size of 17, the engine fetches exactly the two planned offsets,
both pages come back full (length 5 — no short page is ever returned), and the
run stops anyway, leaving 7 rows unfetched; the claimed short-page-terminated
fetch would have visited offsets 0, 5, 10, 15. -/
theorem engine_ignores_short_page_counterexample :
    (engineRun (mkRows 17) 10 5).map Prod.fst = [0, 5] ∧
    (∀ p ∈ engineRun (mkRows 17) 10 5, p.2.length = 5) ∧
    shortPageOffsets 17 5 = [0, 5, 10, 15] ∧
    ([0, 5] : List Nat) ≠ [0, 5, 10, 15] ∧
    ((engineRun (mkRows 17) 10 5).map (fun p => p.2.length)).sum = 10 ∧
    (mkRows 17).length = 17 := by
  refine ⟨rfl, ?_, rfl, by decide, rfl, rfl⟩
  decide

/-- C4 amended: termination is decided solely by the offsets planned from the
advisory estimate — the engine fetches exactly those offsets whatever the
remote contents (page lengths are never consulted), every planned offset lies
below the estimate, and each fetched page holds at most `page_size` rows; so
when the true size exceeds the estimate, rows beyond the planned range are
never fetched. -/
theorem engine_fetches_planned_offsets (est page_size : Nat)
    (remote remote2 : List Row) (hps : 0 < page_size) :
    (engineRun remote est page_size).map Prod.fst = plannedOffsets est page_size ∧
    (engineRun remote est page_size).map Prod.fst
      = (engineRun remote2 est page_size).map Prod.fst ∧
    (∀ o ∈ plannedOffsets est page_size, o < est) ∧
    (∀ p ∈ engineRun remote est page_size, p.2.length ≤ page_size) := by
  have hfst : ∀ (rem : List Row),
      (engineRun rem est page_size).map Prod.fst = plannedOffsets est page_size := by
    intro rem
    unfold engineRun
    rw [List.map_map]
    rw [show (Prod.fst ∘ fun o => (o, pageAt rem o page_size)) = id from rfl]
    exact List.map_id _
  refine ⟨hfst remote, ?_, ?_, ?_⟩
  · rw [hfst remote, hfst remote2]
  · intro o ho
    obtain ⟨i, hi, rfl⟩ := List.mem_map.mp ho
    have hi' : i + 1 ≤ (est + page_size - 1) / page_size := List.mem_range.mp hi
    have hmul : (i + 1) * page_size ≤ est + page_size - 1 :=
      (Nat.le_div_iff_mul_le hps).mp hi'
    cases est with
    | zero =>
      exfalso
      have : (0 + page_size - 1) / page_size = 0 :=
        Nat.div_eq_of_lt (by omega)
      omega
    | succ e =>
      have : (i + 1) * page_size = i * page_size + page_size := by ring
      omega
  · intro p hp
    obtain ⟨o, _, rfl⟩ := List.mem_map.mp hp
    simp [pageAt]

/-- Witness for C4 amended at estimate 10, page size 5. -/
theorem engine_fetches_planned_offsets_witness :
    (0 : Nat) < 5 ∧
    (engineRun (mkRows 17) 10 5).map Prod.fst = plannedOffsets 10 5 :=
  ⟨by decide, (engine_fetches_planned_offsets 10 5 (mkRows 17) [] (by decide)).1⟩

/-! ## Streaming CSV sink (src/rdw_client.py StreamingCSVWriter.write_rows,
src/download.py CSVWriter.rows_write)

`write_rows` returns immediately on an empty list; on the first non-empty
batch it builds a `csv.DictWriter` whose `fieldnames` are the keys of the
batch's first row — unless fieldnames were supplied up front (or, in
`CSVWriter`, recovered from the header of an existing file when resuming) —
with `extrasaction='ignore'`, so a key of a later row that is not among the
fieldnames is silently dropped, and a missing key is emitted as the default
`restval` (the empty string).  Every subsequent batch is written through the
same `DictWriter`; the fieldnames are never revisited. -/

/-- Sink state: the column set once fixed, whether the header line has been
emitted, the data lines written so far (one list of cells per record), and the
running row count. -/
structure CSVState where
  fieldnames : Option (List String)
  headerWritten : Bool
  outLines : List (List String)
  rowCount : Nat
  deriving Repr, DecidableEq

/-- A fresh writer; `provided` models fieldnames supplied to the constructor
or recovered from a pre-existing header when resuming. -/
def csvInit (provided : Option (List String)) : CSVState :=
  { fieldnames := provided, headerWritten := false, outLines := [], rowCount := 0 }

/-- `DictWriter.writerow` under `extrasaction='ignore'` and `restval=''`:
one cell per fieldname, empty for a missing key, extra keys dropped. -/
def rowProject (fns : List String) (r : Row) : List String :=
  fns.map (fun f => (colValue r f).getD "")

/-- `write_rows(rows)`: no-op on an empty list; otherwise fix the fieldnames
from the first row if not yet fixed, emit the header once, append one
projected line per record, and return the number of rows written. -/
def write_rows (st : CSVState) (rows : List Row) : CSVState × Nat :=
  if rows.isEmpty then (st, 0)
  else
    let fns :=
      match st.fieldnames with
      | some f => f
      | none => (rows.headD []).map Prod.fst
    ({ fieldnames := some fns,
       headerWritten := true,
       outLines := st.outLines ++ rows.map (rowProject fns),
       rowCount := st.rowCount + rows.length }, rows.length)

/-- A run of the sink over successive batches. -/
def write_batches (st : CSVState) : List (List Row) → CSVState
  | [] => st
  | b :: bs => write_batches (write_rows st b).1 bs

/-- The keys of the first row of the first non-empty batch, if any. -/
def firstBatchFields (batches : List (List Row)) : Option (List String) :=
  (batches.find? (fun b => !b.isEmpty)).map (fun b => (b.headD []).map Prod.fst)

lemma write_batches_fieldnames_mono (fns : List String) :
    ∀ (bs : List (List Row)) (st : CSVState), st.fieldnames = some fns →
      (write_batches st bs).fieldnames = some fns := by
  intro bs
  induction bs with
  | nil => intro st h; exact h
  | cons b rest ih =>
    intro st h
    by_cases hb : b.isEmpty
    · rw [write_batches, write_rows, if_pos hb]
      exact ih st h
    · rw [write_batches, write_rows, if_neg hb]
      exact ih _ (by rw [h])

lemma write_batches_lines (fns : List String) :
    ∀ (bs : List (List Row)) (st : CSVState), st.fieldnames = some fns →
      (∀ line ∈ st.outLines, line.length = fns.length) →
      ∀ line ∈ (write_batches st bs).outLines, line.length = fns.length := by
  intro bs
  induction bs with
  | nil => intro st _ hl; exact hl
  | cons b rest ih =>
    intro st h hl
    by_cases hb : b.isEmpty
    · rw [write_batches, write_rows, if_pos hb]
      exact ih st h hl
    · rw [write_batches, write_rows, if_neg hb]
      refine ih _ (by rw [h]) ?_
      intro line hline
      rw [h] at hline
      dsimp only at hline
      rcases List.mem_append.mp hline with hold | hnew
      · exact hl line hold
      · obtain ⟨r, _, rfl⟩ := List.mem_map.mp hnew
        exact List.length_map _ _

lemma colValue_append_single (r : Row) (g f v : String) (h : f ≠ g) :
    colValue (r ++ [(g, v)]) f = colValue r f := by
  unfold colValue
  rw [List.find?_append]
  have hgf : (g == f) = false := beq_eq_false_iff_ne.mpr (Ne.symm h)
  have hg : List.find? (fun p => p.1 == f) [(g, v)] = none := by
    simp [List.find?, hgf]
  rw [hg]
  cases List.find? (fun p => p.1 == f) r <;> rfl

lemma write_batches_fieldnames_first :
    ∀ batches : List (List Row),
      (write_batches (csvInit none) batches).fieldnames = firstBatchFields batches := by
  intro batches
  induction batches with
  | nil => rfl
  | cons b rest ih =>
    by_cases hb : b.isEmpty
    · rw [write_batches, write_rows, if_pos hb, ih]
      simp [firstBatchFields, List.find?, hb]
    · rw [write_batches, write_rows, if_neg hb]
      rw [write_batches_fieldnames_mono _ rest _ rfl]
      simp [csvInit, firstBatchFields, List.find?, hb]

/-- C10: the sink's column set is fixed by the keys of the first row of the
first non-empty batch (or by fieldnames supplied up front / recovered from a
pre-existing header when resuming, which later batches never change); a field
present only in later rows is silently dropped — projecting a row extended
with a key outside the fixed fieldnames yields the same line — and every
written line has exactly one cell per fixed column, so no new column ever
appears. -/
theorem csv_sink_fixed_columns (batches : List (List Row)) (fns : List String)
    (r : Row) (g v : String) (hg : g ∉ fns) :
    (write_batches (csvInit none) batches).fieldnames = firstBatchFields batches ∧
    (write_batches (csvInit (some fns)) batches).fieldnames = some fns ∧
    rowProject fns (r ++ [(g, v)]) = rowProject fns r ∧
    (∀ line ∈ (write_batches (csvInit (some fns)) batches).outLines,
      line.length = fns.length) := by
  refine ⟨write_batches_fieldnames_first batches,
          write_batches_fieldnames_mono fns batches _ rfl, ?_,
          write_batches_lines fns batches _ rfl
            (by intro line h; exact absurd h (List.not_mem_nil line))⟩
  unfold rowProject
  refine List.map_congr_left ?_
  intro f hf
  have hfg : f ≠ g := fun he => hg (he ▸ hf)
  rw [colValue_append_single r g f v hfg]

/-- Witness for C10: a second batch carries field "c", absent from the fixed
columns ["a", "b"]; its projection drops "c". -/
theorem csv_sink_fixed_columns_witness :
    "c" ∉ ["a", "b"] ∧
    rowProject ["a", "b"] ([("a", "3")] ++ [("c", "4")]) =
      rowProject ["a", "b"] [("a", "3")] :=
  ⟨by decide,
   (csv_sink_fixed_columns [[[("a", "1"), ("b", "2")]]] ["a", "b"]
      [("a", "3")] "c" "4" (by decide)).2.2.1⟩
